import Mathlib

/-!
Verification of the fed-algo regression/solver/aggregation engine.

Shallow embedding of `gwasprs/regression.py` and of the federated
aggregation primitives, over exact rational arithmetic (`ℚ`), with
vectors and matrices as lists (matrices are lists of rows).

Modules `gwasprs.linalg`, `gwasprs.stats` and `gwasprs.aggregations` are
not part of the provided sources; definitions taken from the spec's
description of them carry a doc comment starting `Modelled from the
spec:`.  Everything else is translated from `src/gwasprs/regression.py`.
-/

namespace FedAlgo

/-- A vector of rationals, modelling a 1-D numeric array. -/
abbrev Vec := List ℚ

/-- A matrix as a list of rows, modelling a 2-D numeric array. -/
abbrev Mat := List Vec

/-- Dot product of two vectors. -/
def dot (u v : Vec) : ℚ := (List.zipWith (· * ·) u v).sum

/-- Matrix-vector multiplication (`linalg.mvmul`), row-wise dot products. -/
def mvmul (A : Mat) (v : Vec) : Vec := A.map (fun r => dot r v)

/-- Element-wise vector addition. -/
def vadd (u v : Vec) : Vec := List.zipWith (· + ·) u v

/-- Element-wise vector subtraction. -/
def vsub (u v : Vec) : Vec := List.zipWith (· - ·) u v

/-! ## Federated aggregation primitives (`gwasprs.aggregations`)

The `aggregations` module is not under `src/`; only its tests are.  The
operators below are modelled from the spec. -/

/-- Auxiliary first-occurrence deduplication: keeps each element of `l`
not already in `seen`, at its first occurrence, in order. -/
def firstDedupAux (seen : List ℤ) : List ℤ → List ℤ
  | [] => []
  | x :: xs =>
    if x ∈ seen then firstDedupAux seen xs
    else x :: firstDedupAux (x :: seen) xs

/-- First-occurrence deduplication of a list. -/
def firstDedup (l : List ℤ) : List ℤ := firstDedupAux [] l

/-- Modelled from the spec: `gwasprs.aggregations.Intersect` is not under
`src/`.  It accepts 2+ numeric arrays, returns the elements of the first
argument that occur in every other argument, in the order of their
occurrence in the first argument, with duplicates collapsed to their
first occurrence. -/
def Intersect (a : List ℤ) (others : List (List ℤ)) : List ℤ :=
  firstDedup (a.filter (fun x => others.all (fun b => decide (x ∈ b))))

/-- A federated contribution: a plain number, a numeric array, or an
ordered sequence of arrays. -/
inductive FedValue where
  | num (x : ℚ)
  | arr (v : Vec)
  | seq (vs : List Vec)
deriving DecidableEq

/-- Modelled from the spec: element-wise sum of two contributions of the
same container kind (mismatched kinds are outside the contract). -/
def addFed : FedValue → FedValue → Option FedValue
  | .num a, .num b => some (.num (a + b))
  | .arr u, .arr v => some (.arr (List.zipWith (· + ·) u v))
  | .seq us, .seq vs => some (.seq (List.zipWith (fun u v => List.zipWith (· + ·) u v) us vs))
  | _, _ => none

/-- Modelled from the spec: `gwasprs.aggregations.SumUp` is not under
`src/`.  It accepts 2+ same-shaped contributions and returns their
element-wise sum, preserving container shape. -/
def SumUp : List FedValue → Option FedValue
  | [] => none
  | x :: xs => xs.foldl (fun acc c => acc.bind (fun a => addFed a c)) (some x)

/-! ## Solver strategies (`gwasprs.linalg`)

The `linalg` module is not under `src/`; `regression.py` uses its solver
objects only through calls `algo(A, b)` and `isinstance(algo, QRSolver)`
checks. -/

/-- Modelled from the spec: a pluggable solver strategy for the normal
equations `A x = b`; the `isQR` flag models the
`isinstance(algo, linalg.QRSolver)` capability check. -/
structure LinearSolver where
  isQR : Bool
  solve : Mat → Vec → Vec

/-- Modelled from the spec: batched solver strategy, solving a stack of
independent small systems at once. -/
structure BatchedSolver where
  isQR : Bool
  solve : List Mat → List Vec → List Vec

/-- Modelled from the spec: a fallible batched solve (a solve either
completes or fails with a numeric error, e.g. a non-positive-definite
Hessian), as caught by `BatchedLogisticRegression.beta`. -/
abbrev BatchedSolveFn := List Mat → List Vec → Except String (List Vec)

/-! ## `LinearRegression` (`regression.py`, lines 19-85) -/

structure LinearRegression where
  coef : Vec
  include_bias : Bool

/-- `LinearRegression.__init__`: requires `beta`, or both `XtX` and `Xty`
(in which case `beta` is solved by `algo`, which must not be a QR solver). -/
def LinearRegression.init (beta : Option Vec) (XtX : Option Mat) (Xty : Option Vec)
    (algo : LinearSolver) (include_bias : Bool) : Except String LinearRegression :=
  match beta with
  | none =>
    match XtX, Xty with
    | some xtx, some xty =>
      if algo.isQR then
        .error "QRSolver is not supported in constructor."
      else
        .ok ⟨algo.solve xtx xty, include_bias⟩
    | _, _ => .error "Must provide XtX and Xty, since beta is not provided."
  | some b => .ok ⟨b, include_bias⟩

/-- `LinearRegression.dof`: `nobs - k` with `k = beta.shape[0] + include_bias`. -/
def LinearRegression.dof (m : LinearRegression) (nobs : ℤ) : ℤ :=
  nobs - ((m.coef.length : ℤ) + (if m.include_bias then 1 else 0))

def LinearRegression.predict (m : LinearRegression) (X : Mat) : Vec :=
  mvmul X m.coef

def LinearRegression.residual (m : LinearRegression) (X : Mat) (y : Vec) : Vec :=
  vsub y (m.predict X)

def LinearRegression.sse (m : LinearRegression) (X : Mat) (y : Vec) : ℚ :=
  dot (m.residual X y) (m.residual X y)

/-! ## `BatchedLinearRegression` (`regression.py`, lines 88-169) -/

/-- Modelled from the spec: `linalg.batched_mvmul` applies matrix-vector
multiply per leading-axis slice of the batched stacks. -/
def batched_mvmul (Xs : List Mat) (cs : List Vec) : List Vec :=
  List.zipWith mvmul Xs cs

/-- Splitting a list into `n` consecutive chunks of `k` elements each:
the `np.reshape(·, (ncores, minibatch, ...))` step of the pmap path. -/
def chunkExact (n k : ℕ) (l : List α) : List (List α) :=
  match n with
  | 0 => []
  | n + 1 => l.take k :: chunkExact n k (l.drop k)

structure BatchedLinearRegression where
  coef : List Vec
  include_bias : Bool

/-- `BatchedLinearRegression.__init__`, same validation as the plain model. -/
def BatchedLinearRegression.init (beta : Option (List Vec)) (XtX : Option (List Mat))
    (Xty : Option (List Vec)) (algo : BatchedSolver) (include_bias : Bool) :
    Except String BatchedLinearRegression :=
  match beta with
  | none =>
    match XtX, Xty with
    | some xtx, some xty =>
      if algo.isQR then
        .error "QRSolver is not supported in constructor."
      else
        .ok ⟨algo.solve xtx xty, include_bias⟩
    | _, _ => .error "Must provide XtX and Xty, since beta is not provided."
  | some b => .ok ⟨b, include_bias⟩

/-- `BatchedLinearRegression.dof`: `nobs - k` with
`k = coef.shape[-1] + include_bias`. -/
def BatchedLinearRegression.dof (m : BatchedLinearRegression) (nobs : ℤ) : ℤ :=
  nobs - (((m.coef.headD []).length : ℤ) + (if m.include_bias then 1 else 0))

/-- The `acceleration="pmap"` path of `BatchedLinearRegression.predict`:
partition the evenly divisible front of the batch into `ncores` chunks of
`minibatch = batch // ncores` slices each, apply `batched_mvmul` to each
chunk (the `pmap` fan-out), reassemble in order, and process the
remainder (if any) with the non-parallel `batched_mvmul`, concatenated
last.  The worker count `ncores` (`utils.jax_cpu_cores()`, sized to the
available cores) is passed as a parameter. -/
def BatchedLinearRegression.predictPmap (ncores : ℕ) (m : BatchedLinearRegression)
    (X : List Mat) : List Vec :=
  let batch := X.length
  let minibatch := batch / ncores
  let A := chunkExact ncores minibatch (X.take (minibatch * ncores))
  let a := chunkExact ncores minibatch (m.coef.take (minibatch * ncores))
  let Y := (List.zipWith batched_mvmul A a).flatten
  if batch % ncores ≠ 0 then
    Y ++ batched_mvmul (X.drop (minibatch * ncores)) (m.coef.drop (minibatch * ncores))
  else
    Y

/-- `BatchedLinearRegression.predict` with its acceleration-mode dispatch. -/
def BatchedLinearRegression.predict (m : BatchedLinearRegression) (X : List Mat)
    (acceleration : String) (ncores : ℕ) : Except String (List Vec) :=
  if acceleration = "single" then
    .ok (batched_mvmul X m.coef)
  else if acceleration = "pmap" then
    .ok (BatchedLinearRegression.predictPmap ncores m X)
  else
    .error (acceleration ++ " acceleration is not supported.")

/-! ## `BlockedLinearRegression` (`regression.py`, lines 172-251) -/

structure BlockedLinearRegression where
  coef : Vec
  nmodels : ℕ

/-- `BlockedLinearRegression.__init__`: `beta`, or both `XtX`/`Xty` with a
non-QR solver; the coefficient (resp. `XtX`) dimension must be divisible
by `nmodels`. -/
def BlockedLinearRegression.init (beta : Option Vec) (XtX : Option Mat) (Xty : Option Vec)
    (nmodels : ℕ) (algo : LinearSolver) : Except String BlockedLinearRegression :=
  match beta with
  | none =>
    match XtX, Xty with
    | some xtx, some xty =>
      if algo.isQR then
        .error "QRSolver is not supported in constructor."
      else if xtx.length % nmodels ≠ 0 then
        .error "Dimension of XtX is not divisible by number of models."
      else
        .ok ⟨algo.solve xtx xty, nmodels⟩
    | _, _ => .error "Must provide XtX and Xty, since beta is not provided."
  | some b =>
    if b.length % nmodels ≠ 0 then
      .error "Dimension of beta is not divisible by number of models."
    else
      .ok ⟨b, nmodels⟩

/-- `coef_dim = beta.shape[0] // nmodels`. -/
def BlockedLinearRegression.coef_dim (m : BlockedLinearRegression) : ℕ :=
  m.coef.length / m.nmodels

/-- `BlockedLinearRegression.dof`: `nobs - coef_dim`. -/
def BlockedLinearRegression.dof (m : BlockedLinearRegression) (nobs : ℤ) : ℤ :=
  nobs - (m.coef_dim : ℤ)

def BlockedLinearRegression.predict (m : BlockedLinearRegression) (X : Mat) : Vec :=
  mvmul X m.coef

def BlockedLinearRegression.residual (m : BlockedLinearRegression) (X : Mat) (y : Vec) : Vec :=
  vsub y (m.predict X)

/-- Running cumulative sums starting from `acc`: `np.cumsum`. -/
def cumsumFrom : ℕ → List ℕ → List ℕ
  | _, [] => []
  | acc, x :: xs => (acc + x) :: cumsumFrom (acc + x) xs

/-- `np.cumsum(np.insert(nobss, 0, 0))`: the per-block slice boundaries. -/
def blockStarts (nobss : List ℕ) : List ℕ :=
  cumsumFrom 0 (0 :: nobss)

/-- The Python slice `res[a:b]`. -/
def slice (l : Vec) (a b : ℕ) : Vec :=
  (l.drop a).take (b - a)

/-- Per-block squared residual norms given the residual vector: one entry
per consecutive pair of block boundaries (`res[starts[i]:starts[i+1]]`). -/
def sseSlices (res : Vec) (nobss : List ℕ) : List ℚ :=
  let bs := blockStarts nobss
  (bs.zip bs.tail).map (fun q => dot (slice res q.1 q.2) (slice res q.1 q.2))

/-- `BlockedLinearRegression.sse`: slice the residual vector at the
cumulative sums of `nobss` and return one squared norm per block. -/
def BlockedLinearRegression.sse (m : BlockedLinearRegression) (X : Mat) (y : Vec)
    (nobss : List ℕ) : List ℚ :=
  sseSlices (m.residual X y) nobss

/-- Recursive restatement of the per-block slicing, used in proofs. -/
def sseRec : Vec → List ℕ → List ℚ
  | _, [] => []
  | res, n :: ns => dot (res.take n) (res.take n) :: sseRec (res.drop n) ns

/-! ## `LogisticRegression` (`regression.py`, lines 254-281)

`linalg.logistic_predict`, `logistic_hessian` and the solver objects are
not under `src/`; they are modelled from the spec, with the pointwise
logistic link abstracted as a parameter `σ`. -/

/-- Modelled from the spec: `linalg.logistic_predict` applies the
logistic link pointwise to `X · beta`. -/
def logistic_predict (σ : ℚ → ℚ) (X : Mat) (b : Vec) : Vec :=
  (mvmul X b).map σ

/-- Scale the rows of `X` by the entries of `w` (the `diag(w) · X` product). -/
def scaleRows (w : Vec) (X : Mat) : Mat :=
  List.zipWith (fun wi r => r.map (fun t => wi * t)) w X

/-- Matrix product, row by row. -/
def matMul (A B : Mat) : Mat :=
  A.map (fun r => B.transpose.map (fun c => dot r c))

/-- Modelled from the spec: `linalg.logistic_hessian` builds the Hessian
from the current prediction's variance structure, `Xᵗ · diag(p(1-p)) · X`. -/
def logistic_hessian (σ : ℚ → ℚ) (X : Mat) (b : Vec) : Mat :=
  let p := logistic_predict σ X b
  matMul X.transpose (scaleRows (p.map (fun t => t * (1 - t))) X)

structure LogisticRegression where
  coef : Option Vec

/-- `LogisticRegression.__init__`: stores `beta` with no validation. -/
def LogisticRegression.init (beta : Option Vec) : LogisticRegression :=
  ⟨beta⟩

/-- `LogisticRegression.residual` evaluated at coefficient state `b`. -/
def LogisticRegression.residualAt (σ : ℚ → ℚ) (X : Mat) (y : Vec) (b : Vec) : Vec :=
  vsub y (logistic_predict σ X b)

/-- `LogisticRegression.gradient`: `Xᵗ · (y - ŷ)`. -/
def LogisticRegression.gradientAt (σ : ℚ → ℚ) (X : Mat) (y : Vec) (b : Vec) : Vec :=
  mvmul X.transpose (LogisticRegression.residualAt σ X y b)

/-- `LogisticRegression.beta`: the Newton coefficient update
`beta + solver(hessian, gradient)`. -/
def LogisticRegression.betaUpdate (b : Vec) (gradient : Vec) (hessian : Mat)
    (solver : LinearSolver) : Vec :=
  vadd b (solver.solve hessian gradient)

/-- `LogisticRegression.fit`: one Newton step replacing the coefficient
state; `none` when no coefficient state is present. -/
def LogisticRegression.fit (σ : ℚ → ℚ) (solver : LinearSolver) (X : Mat) (y : Vec)
    (m : LogisticRegression) : Option LogisticRegression :=
  m.coef.map (fun b =>
    ⟨some (LogisticRegression.betaUpdate b (LogisticRegression.gradientAt σ X y b)
      (logistic_hessian σ X b) solver)⟩)

/-! ## `BatchedLogisticRegression` (`regression.py`, lines 284-334) -/

/-- Modelled from the spec: `linalg.batched_logistic_predict`, the
per-slice logistic prediction. -/
def batched_logistic_predict (σ : ℚ → ℚ) (Xs : List Mat) (bs : List Vec) : List Vec :=
  List.zipWith (logistic_predict σ) Xs bs

structure BatchedLogisticRegression where
  coef : Option (List Vec)
  acceleration : String

/-- `BatchedLogisticRegression.__init__`: stores `beta` with no validation. -/
def BatchedLogisticRegression.init (beta : Option (List Vec)) (acceleration : String) :
    BatchedLogisticRegression :=
  ⟨beta, acceleration⟩

/-- `BatchedLogisticRegression.residual` evaluated at coefficient stack `b`. -/
def BatchedLogisticRegression.residualAt (σ : ℚ → ℚ) (Xs : List Mat) (ys : List Vec)
    (b : List Vec) : List Vec :=
  List.zipWith vsub ys (batched_logistic_predict σ Xs b)

/-- `BatchedLogisticRegression.gradient`: per-slice `Xᵗ · (y - ŷ)`. -/
def BatchedLogisticRegression.gradientAt (σ : ℚ → ℚ) (Xs : List Mat) (ys : List Vec)
    (b : List Vec) : List Vec :=
  List.zipWith (fun X r => mvmul X.transpose r) Xs
    (BatchedLogisticRegression.residualAt σ Xs ys b)

/-- `BatchedLogisticRegression.hessian`: per-slice Hessians. -/
def BatchedLogisticRegression.hessianAt (σ : ℚ → ℚ) (Xs : List Mat) (b : List Vec) :
    List Mat :=
  List.zipWith (logistic_hessian σ) Xs b

/-- `BatchedLogisticRegression.beta`: try the (Cholesky) solver; on
failure retry once with the batched inverse solver (`inverseSolve`);
failure of the fallback propagates. -/
def BatchedLogisticRegression.betaUpdate (inverseSolve : BatchedSolveFn) (b : List Vec)
    (gradient : List Vec) (hessian : List Mat) (solver : BatchedSolveFn) :
    Except String (List Vec) :=
  match solver hessian gradient with
  | .ok d => .ok (List.zipWith vadd b d)
  | .error _ =>
    match inverseSolve hessian gradient with
    | .ok d => .ok (List.zipWith vadd b d)
    | .error e => .error e

/-- `BatchedLogisticRegression.fit`: one batched Newton step replacing
the coefficient stack. -/
def BatchedLogisticRegression.fit (σ : ℚ → ℚ) (solver inverseSolve : BatchedSolveFn)
    (Xs : List Mat) (ys : List Vec) (m : BatchedLogisticRegression) :
    Option (Except String BatchedLogisticRegression) :=
  m.coef.map (fun b =>
    (BatchedLogisticRegression.betaUpdate inverseSolve b
      (BatchedLogisticRegression.gradientAt σ Xs ys b)
      (BatchedLogisticRegression.hessianAt σ Xs b) solver).map
      (fun b2 => ⟨some b2, m.acceleration⟩))

/-! ## Concrete inputs used by witness statements -/

/-- A solver flagged as a QR solver (any behavior). -/
def wQRSolver : LinearSolver := ⟨true, fun _ _ => []⟩

/-- A batched solver flagged as a QR solver. -/
def wQRBatchedSolver : BatchedSolver := ⟨true, fun _ _ => []⟩

/-- A non-QR solver returning the right-hand side unchanged. -/
def wPlainSolver : LinearSolver := ⟨false, fun _ b => b⟩

/-- A batched solve that always fails, standing for a Cholesky
factorization failure. -/
def wFailingSolve : BatchedSolveFn := fun _ _ => .error "cholesky failed"

/-- A second always-failing batched solve, standing for a failure of the
inverse-solver fallback. -/
def wFailingSolve2 : BatchedSolveFn := fun _ _ => .error "inverse failed"

/-- A batched solve that succeeds, returning the gradient stack unchanged. -/
def wOkSolve : BatchedSolveFn := fun _ g => .ok g

/-- A concrete batched linear model with three unit coefficient vectors. -/
def wBatchedModel : BatchedLinearRegression := ⟨[[1], [2], [3]], false⟩

/-- A concrete blocked linear model with a single one-coefficient block. -/
def wBlockedModel : BlockedLinearRegression := ⟨[1], 1⟩

/-! ### Lemmas on first-occurrence deduplication -/

theorem mem_firstDedupAux (a : ℤ) : ∀ (l seen : List ℤ), a ∈ firstDedupAux seen l ↔ a ∈ l ∧ a ∉ seen := by
  intro l
  induction l with
  | nil => intro seen; simp [firstDedupAux]
  | cons x xs ih =>
    intro seen
    by_cases hx : x ∈ seen
    · rw [firstDedupAux, if_pos hx, ih seen]
      constructor
      · rintro ⟨h1, h2⟩; exact ⟨List.mem_cons_of_mem x h1, h2⟩
      · rintro ⟨h1, h2⟩
        rcases List.mem_cons.mp h1 with h1 | h1
        · exact absurd (h1 ▸ hx) h2
        · exact ⟨h1, h2⟩
    · rw [firstDedupAux, if_neg hx]
      by_cases hax : a = x
      · subst hax
        simp [hx]
      · simp only [List.mem_cons, ih, not_or]
        tauto

theorem nodup_firstDedupAux : ∀ (l seen : List ℤ), (firstDedupAux seen l).Nodup := by
  intro l
  induction l with
  | nil => intro seen; simp [firstDedupAux]
  | cons x xs ih =>
    intro seen
    by_cases hx : x ∈ seen
    · simpa [firstDedupAux, if_pos hx] using ih seen
    · simp only [firstDedupAux, if_neg hx, List.nodup_cons]
      refine ⟨?_, ih (x :: seen)⟩
      intro hmem
      rcases (mem_firstDedupAux x xs (x :: seen)).1 hmem with ⟨_, h2⟩
      exact h2 (List.mem_cons_self x seen)

theorem firstDedupAux_congr : ∀ (l s1 s2 : List ℤ), (∀ y, y ∈ s1 ↔ y ∈ s2) →
    firstDedupAux s1 l = firstDedupAux s2 l := by
  intro l
  induction l with
  | nil => intro s1 s2 _; rfl
  | cons x xs ih =>
    intro s1 s2 h
    by_cases hx : x ∈ s1
    · rw [firstDedupAux, if_pos hx, firstDedupAux, if_pos ((h x).1 hx)]
      exact ih s1 s2 h
    · rw [firstDedupAux, if_neg hx, firstDedupAux, if_neg (fun hc => hx ((h x).2 hc))]
      refine congrArg (x :: ·) (ih _ _ ?_)
      intro y
      simp only [List.mem_cons]
      exact or_congr Iff.rfl (h y)

theorem firstDedupAux_seen_cons : ∀ (l : List ℤ) (x : ℤ) (seen : List ℤ),
    firstDedupAux (x :: seen) l = (firstDedupAux seen l).filter (fun y => decide (y ≠ x)) := by
  intro l
  induction l with
  | nil => intro x seen; rfl
  | cons z zs ih =>
    intro x seen
    by_cases hzx : z = x
    · subst hzx
      rw [firstDedupAux, if_pos (List.mem_cons_self z seen)]
      by_cases hz : z ∈ seen
      · rw [firstDedupAux, if_pos hz]
        exact ih z seen
      · rw [firstDedupAux, if_neg hz, List.filter_cons, if_neg (by simp)]
        symm
        rw [List.filter_eq_self]
        intro y hy
        rcases (mem_firstDedupAux y zs (z :: seen)).1 hy with ⟨_, hns⟩
        simp only [decide_eq_true_eq, ne_eq]
        intro hyz
        exact hns (hyz ▸ List.mem_cons_self z seen)
    · by_cases hz : z ∈ seen
      · rw [firstDedupAux, if_pos (List.mem_cons_of_mem x hz), firstDedupAux, if_pos hz]
        exact ih x seen
      · have hz2 : z ∉ x :: seen := by
          simp only [List.mem_cons]
          tauto
        rw [firstDedupAux, if_neg hz2, firstDedupAux, if_neg hz, List.filter_cons,
          if_pos (by simp [hzx])]
        refine congrArg (z :: ·) ?_
        have hswap : firstDedupAux (z :: x :: seen) zs = firstDedupAux (x :: z :: seen) zs := by
          refine firstDedupAux_congr zs _ _ ?_
          intro y
          simp only [List.mem_cons]
          tauto
        rw [hswap, ih x (z :: seen)]

theorem firstDedupAux_filter_comm (p : ℤ → Bool) : ∀ (l seen : List ℤ),
    firstDedupAux seen (l.filter p) = (firstDedupAux seen l).filter p := by
  intro l
  induction l with
  | nil => intro seen; rfl
  | cons x xs ih =>
    intro seen
    by_cases hpx : p x
    · rw [List.filter_cons, if_pos hpx]
      by_cases hx : x ∈ seen
      · rw [firstDedupAux, if_pos hx, firstDedupAux, if_pos hx, ih seen]
      · rw [firstDedupAux, if_neg hx, firstDedupAux, if_neg hx, List.filter_cons, if_pos hpx]
        exact congrArg (x :: ·) (ih (x :: seen))
    · have hpx' : p x = false := by simpa using hpx
      rw [List.filter_cons, if_neg (by simp [hpx'])]
      by_cases hx : x ∈ seen
      · rw [firstDedupAux, if_pos hx, ih seen]
      · rw [firstDedupAux, if_neg hx, ih seen, firstDedupAux_seen_cons, List.filter_cons,
          if_neg (by simp [hpx']), List.filter_filter]
        refine List.filter_congr ?_
        intro y _
        cases hpy : p y with
        | false => simp
        | true =>
          have hyx : y ≠ x := by
            intro hyx
            rw [hyx, hpx'] at hpy
            exact Bool.false_ne_true hpy
          simp [hyx]

theorem firstDedup_filter (p : ℤ → Bool) (l : List ℤ) :
    firstDedup (l.filter p) = (firstDedup l).filter p :=
  firstDedupAux_filter_comm p l []

theorem mem_firstDedup (a : ℤ) (l : List ℤ) : a ∈ firstDedup l ↔ a ∈ l := by
  simp [firstDedup, mem_firstDedupAux]

theorem nodup_firstDedup (l : List ℤ) : (firstDedup l).Nodup :=
  nodup_firstDedupAux l []

/-! ## Claim theorems -/

/-- C1: for 2+ numeric-array arguments, `Intersect` returns exactly the
elements of the first array that occur in every other argument, listed in
the order of their occurrence in the first array, with duplicate values
collapsed to their first occurrence; in particular
`Intersect([2,2,5,1,7,0,10], [1,2,3,4,4,5,7,10,0], [0,1,2,3,4,5,6,7,10])
= [2,5,1,7,0,10]`. -/
theorem intersect_first_occurrence_semantics :
    (Intersect [2, 2, 5, 1, 7, 0, 10]
        [[1, 2, 3, 4, 4, 5, 7, 10, 0], [0, 1, 2, 3, 4, 5, 6, 7, 10]]
      = [2, 5, 1, 7, 0, 10])
    ∧ (∀ (a : List ℤ) (others : List (List ℤ)) (x : ℤ),
        x ∈ Intersect a others ↔ x ∈ a ∧ ∀ b ∈ others, x ∈ b)
    ∧ (∀ (a : List ℤ) (others : List (List ℤ)), (Intersect a others).Nodup)
    ∧ (∀ (a : List ℤ) (others : List (List ℤ)),
        Intersect a others
          = (firstDedup a).filter (fun x => others.all (fun b => decide (x ∈ b)))) := by
  refine ⟨by decide, ?_, ?_, ?_⟩
  · intro a others x
    unfold Intersect firstDedup
    rw [mem_firstDedupAux]
    simp [List.mem_filter, List.all_eq_true]
  · intro a others
    exact nodup_firstDedup _
  · intro a others
    exact firstDedup_filter _ a

/-- C1 witness: the membership characterization applied at a concrete
input. -/
theorem intersect_first_occurrence_semantics_witness :
    (5 : ℤ) ∈ Intersect [5] [[5]] :=
  (intersect_first_occurrence_semantics.2.1 [5] [[5]] 5).mpr
    ⟨by decide, by intro b hb; rw [List.mem_singleton.mp hb]; exact List.mem_singleton.mpr rfl⟩

/-- C4 counterexample: the claim includes the logistic variant, but
`LogisticRegression.__init__` (and the batched logistic constructor)
performs no validation: constructing with `beta = None` succeeds and
produces an instance whose coefficient state is absent. -/
theorem logistic_init_none_counterexample :
    (LogisticRegression.init none).coef = none
    ∧ (BatchedLogisticRegression.init none "single").coef = none :=
  ⟨rfl, rfl⟩

/-- C4 (amended): for the three linear variants (plain, batched,
blocked), constructing with `beta = None` and `XtX` or `Xty` missing
fails with the validation error; the logistic constructors perform no
such validation and produce an instance with absent coefficient state. -/
theorem linear_variants_require_beta_or_stats :
    ∀ (XtX : Option Mat) (Xty : Option Vec) (bXtX : Option (List Mat))
      (bXty : Option (List Vec)) (algo : LinearSolver) (balgo : BatchedSolver)
      (bias : Bool) (nmodels : ℕ),
      (XtX = none ∨ Xty = none) → (bXtX = none ∨ bXty = none) →
      LinearRegression.init none XtX Xty algo bias
          = .error "Must provide XtX and Xty, since beta is not provided."
        ∧ BatchedLinearRegression.init none bXtX bXty balgo bias
          = .error "Must provide XtX and Xty, since beta is not provided."
        ∧ BlockedLinearRegression.init none XtX Xty nmodels algo
          = .error "Must provide XtX and Xty, since beta is not provided."
        ∧ (LogisticRegression.init none).coef = none := by
  intro XtX Xty bXtX bXty algo balgo bias nmodels h1 h2
  refine ⟨?_, ?_, ?_, rfl⟩
  · cases XtX with
    | none => cases Xty <;> rfl
    | some xtx =>
      cases Xty with
      | none => rfl
      | some xty => rcases h1 with h | h <;> simp at h
  · cases bXtX with
    | none => cases bXty <;> rfl
    | some xtx =>
      cases bXty with
      | none => rfl
      | some xty => rcases h2 with h | h <;> simp at h
  · cases XtX with
    | none => cases Xty <;> rfl
    | some xtx =>
      cases Xty with
      | none => rfl
      | some xty => rcases h1 with h | h <;> simp at h

/-- C4 witness: the amended statement applied at concrete inputs. -/
theorem linear_variants_require_beta_or_stats_witness :
    LinearRegression.init none none none wPlainSolver false
        = .error "Must provide XtX and Xty, since beta is not provided."
      ∧ BatchedLinearRegression.init none none none wQRBatchedSolver false
        = .error "Must provide XtX and Xty, since beta is not provided."
      ∧ BlockedLinearRegression.init none none none 1 wPlainSolver
        = .error "Must provide XtX and Xty, since beta is not provided."
      ∧ (LogisticRegression.init none).coef = none :=
  linear_variants_require_beta_or_stats none none none none wPlainSolver wQRBatchedSolver
    false 1 (Or.inl rfl) (Or.inl rfl)

/-- C5: for the variants exposing `dof` (plain, batched and blocked
linear), `dof(n)` is `n - p` without a bias term and `n - p - 1` with
one, where `p` is derived from the model's own stored coefficient
dimensionality (`beta.shape[0]`, `coef.shape[-1]`, and
`coef_dim = len(beta) // nmodels` respectively). -/
theorem dof_observations_minus_coefficients :
    (∀ (m : LinearRegression) (n : ℤ),
      m.dof n = if m.include_bias then n - m.coef.length - 1 else n - m.coef.length)
    ∧ (∀ (m : BatchedLinearRegression) (n : ℤ),
      m.dof n = if m.include_bias then n - (m.coef.headD []).length - 1
        else n - (m.coef.headD []).length)
    ∧ (∀ (m : BlockedLinearRegression) (n : ℤ),
      m.dof n = n - m.coef_dim) := by
  refine ⟨?_, ?_, ?_⟩
  · intro m n
    rcases m with ⟨c, b⟩
    cases b <;> simp [LinearRegression.dof, sub_sub]
  · intro m n
    rcases m with ⟨c, b⟩
    cases b <;> simp [BatchedLinearRegression.dof, sub_sub]
  · intro m n
    rfl

/-- C6: supplying a constructor with only aggregated statistics
`XtX`/`Xty` (no `beta`, no raw rows) together with a QR solver strategy
fails with a configuration error, for all three linear variants. -/
theorem qr_with_aggregated_stats_is_config_error :
    ∀ (XtX : Mat) (Xty : Vec) (bXtX : List Mat) (bXty : List Vec)
      (algo : LinearSolver) (balgo : BatchedSolver) (bias : Bool) (nmodels : ℕ),
      algo.isQR = true → balgo.isQR = true →
      LinearRegression.init none (some XtX) (some Xty) algo bias
          = .error "QRSolver is not supported in constructor."
        ∧ BatchedLinearRegression.init none (some bXtX) (some bXty) balgo bias
          = .error "QRSolver is not supported in constructor."
        ∧ BlockedLinearRegression.init none (some XtX) (some Xty) nmodels algo
          = .error "QRSolver is not supported in constructor." := by
  intro XtX Xty bXtX bXty algo balgo bias nmodels h1 h2
  refine ⟨?_, ?_, ?_⟩
  · simp [LinearRegression.init, h1]
  · simp [BatchedLinearRegression.init, h2]
  · simp [BlockedLinearRegression.init, h1]

/-- C6 witness: the configuration error at concrete inputs. -/
theorem qr_with_aggregated_stats_is_config_error_witness :
    LinearRegression.init none (some [[1]]) (some [1]) wQRSolver false
        = .error "QRSolver is not supported in constructor."
      ∧ BatchedLinearRegression.init none (some [[[1]]]) (some [[1]]) wQRBatchedSolver false
        = .error "QRSolver is not supported in constructor."
      ∧ BlockedLinearRegression.init none (some [[1]]) (some [1]) 1 wQRSolver
        = .error "QRSolver is not supported in constructor." :=
  qr_with_aggregated_stats_is_config_error [[1]] [1] [[[1]]] [[1]] wQRSolver wQRBatchedSolver
    false 1 rfl rfl

/-- C10: when `beta` is provided, the linear-variant constructors ignore
`XtX`, `Xty` and `algo` (no solver call, no QR check) and store exactly
the given `beta`; for the blocked variant the only remaining precondition
is that `beta`'s length be divisible by `nmodels`. -/
theorem init_with_beta_ignores_statistics_and_algo :
    ∀ (b : Vec) (bb : List Vec) (XtX : Option Mat) (Xty : Option Vec)
      (bXtX : Option (List Mat)) (bXty : Option (List Vec))
      (algo : LinearSolver) (balgo : BatchedSolver) (bias bbias : Bool) (nmodels : ℕ),
      LinearRegression.init (some b) XtX Xty algo bias = .ok ⟨b, bias⟩
      ∧ BatchedLinearRegression.init (some bb) bXtX bXty balgo bbias = .ok ⟨bb, bbias⟩
      ∧ (b.length % nmodels = 0 →
          BlockedLinearRegression.init (some b) XtX Xty nmodels algo = .ok ⟨b, nmodels⟩) := by
  intro b bb XtX Xty bXtX bXty algo balgo bias bbias nmodels
  refine ⟨rfl, rfl, ?_⟩
  intro h
  simp [BlockedLinearRegression.init, h]

/-- C10 witness: construction from a given `beta` succeeds even with a QR
solver and ignores the statistics arguments. -/
theorem init_with_beta_ignores_statistics_and_algo_witness :
    LinearRegression.init (some [1, 2]) none none wQRSolver true = .ok ⟨[1, 2], true⟩
      ∧ BatchedLinearRegression.init (some [[1], [2]]) none none wQRBatchedSolver false
        = .ok ⟨[[1], [2]], false⟩
      ∧ BlockedLinearRegression.init (some [1, 2]) none none 2 wQRSolver = .ok ⟨[1, 2], 2⟩ := by
  have h := init_with_beta_ignores_statistics_and_algo [1, 2] [[1], [2]] none none none none
    wQRSolver wQRBatchedSolver true false 2
  exact ⟨h.1, h.2.1, h.2.2 (by decide)⟩

/-! ### Helper lemmas for the pmap acceleration path -/

theorem flatten_zipWith_chunk_batched :
    ∀ (n k : ℕ) (xs : List Mat) (ys : List Vec),
      (List.zipWith batched_mvmul (chunkExact n k xs) (chunkExact n k ys)).flatten
        = (batched_mvmul xs ys).take (n * k) := by
  intro n
  induction n with
  | zero => intro k xs ys; rw [Nat.zero_mul]; rfl
  | succ n ih =>
    intro k xs ys
    simp only [chunkExact, List.zipWith_cons_cons, List.flatten_cons]
    rw [ih k (xs.drop k) (ys.drop k)]
    simp only [batched_mvmul]
    rw [← List.take_zipWith, ← List.drop_zipWith, ← List.take_add]
    have hk : k + n * k = (n + 1) * k := by ring
    rw [hk]

theorem predictPmap_eq_batched_mvmul (ncores : ℕ) (m : BatchedLinearRegression)
    (X : List Mat) (h2 : X.length = m.coef.length) :
    BatchedLinearRegression.predictPmap ncores m X = batched_mvmul X m.coef := by
  simp only [BatchedLinearRegression.predictPmap]
  rw [flatten_zipWith_chunk_batched]
  simp only [batched_mvmul]
  rw [← List.take_zipWith, List.take_take]
  have hmin : min (ncores * (X.length / ncores)) (X.length / ncores * ncores)
      = X.length / ncores * ncores := by
    rw [Nat.mul_comm]
    exact Nat.min_self _
  rw [hmin]
  by_cases hrem : X.length % ncores = 0
  · rw [if_neg (by simp [hrem])]
    have hq : X.length / ncores * ncores = X.length :=
      Nat.div_mul_cancel (Nat.dvd_of_mod_eq_zero hrem)
    rw [hq]
    refine List.take_of_length_le ?_
    rw [List.length_zipWith, h2, Nat.min_self]
  · rw [if_pos hrem]
    rw [← List.drop_zipWith, List.take_append_drop]

/-! ### Helper lemmas for blocked per-block sse -/

theorem slice_shift (res : Vec) (n a b : ℕ) :
    slice res (n + a) (n + b) = slice (res.drop n) a b := by
  simp [slice, List.drop_drop, Nat.add_sub_add_left]

theorem cumsumFrom_shift : ∀ (l : List ℕ) (a b : ℕ),
    cumsumFrom (a + b) l = (cumsumFrom b l).map (fun t => a + t) := by
  intro l
  induction l with
  | nil => intro a b; rfl
  | cons x xs ih =>
    intro a b
    simp only [cumsumFrom, List.map_cons]
    rw [Nat.add_assoc, ih a (b + x)]

theorem blockStarts_cons (n : ℕ) (ns : List ℕ) :
    blockStarts (n :: ns) = 0 :: (blockStarts ns).map (fun t => n + t) := by
  have h : cumsumFrom n ns = (cumsumFrom 0 ns).map (fun t => n + t) := by
    simpa using cumsumFrom_shift ns n 0
  simp only [blockStarts, cumsumFrom, List.map_cons, Nat.zero_add, Nat.add_zero]
  rw [h]

theorem sseSlices_eq_sseRec : ∀ (nobss : List ℕ) (res : Vec),
    sseSlices res nobss = sseRec res nobss := by
  intro nobss
  induction nobss with
  | nil => intro res; rfl
  | cons n ns ih =>
    intro res
    unfold sseSlices
    rw [blockStarts_cons]
    have h0 : blockStarts ns = 0 :: cumsumFrom 0 ns := rfl
    rw [h0]
    simp only [List.map_cons, List.tail_cons, List.zip_cons_cons, Nat.add_zero]
    rw [show ((n : ℕ) :: (cumsumFrom 0 ns).map (fun t => n + t))
        = ((0 :: cumsumFrom 0 ns).map (fun t => n + t)) from by simp]
    rw [List.zip_map (fun t => n + t) (fun t => n + t), List.map_map]
    have hfun : ((fun q : ℕ × ℕ => dot (slice res q.1 q.2) (slice res q.1 q.2))
        ∘ Prod.map (fun t => n + t) (fun t => n + t))
        = fun q : ℕ × ℕ => dot (slice (res.drop n) q.1 q.2) (slice (res.drop n) q.1 q.2) := by
      funext q
      obtain ⟨a, b⟩ := q
      simp only [Function.comp_apply, Prod.map_apply]
      rw [slice_shift]
    rw [hfun]
    have htail : List.map
        (fun q : ℕ × ℕ => dot (slice (res.drop n) q.1 q.2) (slice (res.drop n) q.1 q.2))
        ((0 :: cumsumFrom 0 ns).zip (cumsumFrom 0 ns)) = sseRec (res.drop n) ns := by
      rw [← ih (res.drop n)]
      unfold sseSlices
      rw [h0]
      simp only [List.tail_cons]
    rw [htail]
    rfl

theorem sseRec_length : ∀ (nobss : List ℕ) (res : Vec),
    (sseRec res nobss).length = nobss.length := by
  intro nobss
  induction nobss with
  | nil => intro res; rfl
  | cons n ns ih => intro res; simp [sseRec, ih]

theorem dot_take_add_dot_drop (l : Vec) (n : ℕ) :
    dot (l.take n) (l.take n) + dot (l.drop n) (l.drop n) = dot l l := by
  unfold dot
  rw [← List.take_zipWith, ← List.drop_zipWith, ← List.sum_append, List.take_append_drop]

theorem sseRec_sum : ∀ (nobss : List ℕ) (res : Vec), nobss.sum = res.length →
    (sseRec res nobss).sum = dot res res := by
  intro nobss
  induction nobss with
  | nil =>
    intro res h
    have hres : res = [] := List.length_eq_zero.mp (by simpa using h.symm)
    subst hres
    rfl
  | cons n ns ih =>
    intro res h
    simp only [sseRec, List.sum_cons]
    rw [ih (res.drop n) (by simp only [List.length_drop]; simp at h; omega)]
    exact dot_take_add_dot_drop res n

/-! ### Helper lemmas for element-wise sums -/

theorem zipWith_add_getD : ∀ (u v : Vec), u.length = v.length →
    ∀ i : ℕ, (List.zipWith (· + ·) u v).getD i 0 = u.getD i 0 + v.getD i 0 := by
  intro u
  induction u with
  | nil =>
    intro v h i
    have : v = [] := List.length_eq_zero.mp h.symm
    subst this
    simp
  | cons x xs ih =>
    intro v h i
    cases v with
    | nil => simp at h
    | cons y ys =>
      cases i with
      | zero => simp
      | succ i =>
        simp only [List.zipWith_cons_cons, List.getD_cons_succ]
        exact ih ys (by simpa using h) i

/-! ### Remaining claim theorems -/

/-- C2: `BatchedLinearRegression.predict` with `acceleration="pmap"`
returns the same result as with `acceleration="single"`, for every batch
size, including sizes not evenly divisible by the worker count: the
evenly divisible front is partitioned across the workers, the remainder
is processed by the non-parallel vectorized path and concatenated last,
and batch order is preserved; over exact arithmetic the two modes agree
exactly. -/
theorem predict_pmap_matches_single (m : BatchedLinearRegression) (X : List Mat)
    (ncores : ℕ) (_h1 : 0 < ncores) (h2 : X.length = m.coef.length) :
    m.predict X "pmap" ncores = m.predict X "single" ncores := by
  unfold BatchedLinearRegression.predict
  rw [if_neg (by decide), if_pos rfl, if_pos rfl]
  rw [predictPmap_eq_batched_mvmul ncores m X h2]

/-- C2 witness: both acceleration modes agree on a batch of 3 with 2
workers (a batch size not divisible by the worker count). -/
theorem predict_pmap_matches_single_witness :
    0 < 2 ∧ ([[[1]], [[1]], [[1]]] : List Mat).length = wBatchedModel.coef.length
      ∧ wBatchedModel.predict [[[1]], [[1]], [[1]]] "pmap" 2
        = wBatchedModel.predict [[[1]], [[1]], [[1]]] "single" 2 :=
  ⟨by decide, by decide,
    predict_pmap_matches_single wBatchedModel [[[1]], [[1]], [[1]]] 2 (by decide) (by decide)⟩

/-- C3: a single `fit` call of the logistic models performs exactly one
Newton step: it computes the gradient `Xᵗ(y - ŷ)` from the current
prediction, the Hessian from the current prediction's variance
structure, and replaces the coefficient state with
`beta + solver(hessian, gradient)`; it does not iterate. -/
theorem logistic_fit_single_newton_step :
    (∀ (σ : ℚ → ℚ) (solver : LinearSolver) (X : Mat) (y : Vec) (b : Vec),
      LogisticRegression.fit σ solver X y ⟨some b⟩
        = some ⟨some (vadd b (solver.solve (logistic_hessian σ X b)
            (mvmul X.transpose (vsub y ((mvmul X b).map σ)))))⟩)
    ∧ (∀ (σ : ℚ → ℚ) (solver inverseSolve : BatchedSolveFn) (Xs : List Mat)
        (ys : List Vec) (b : List Vec) (accel : String),
      BatchedLogisticRegression.fit σ solver inverseSolve Xs ys ⟨some b, accel⟩
        = some ((BatchedLogisticRegression.betaUpdate inverseSolve b
            (List.zipWith (fun Xi r => mvmul Xi.transpose r) Xs
              (List.zipWith vsub ys (List.zipWith (fun Xi c => (mvmul Xi c).map σ) Xs b)))
            (List.zipWith (logistic_hessian σ) Xs b) solver).map
            (fun b2 => ⟨some b2, accel⟩))) := by
  constructor
  · intro σ solver X y b
    rfl
  · intro σ solver inverseSolve Xs ys b accel
    rfl

/-- C7: the batched logistic Newton coefficient update first attempts
the given (Cholesky) solver; when that solve fails it retries the same
update with the inverse solver instead of raising, and a failure of the
fallback itself is propagated. -/
theorem batched_newton_update_fallback :
    ∀ (inverseSolve solver : BatchedSolveFn) (b gradient : List Vec) (hessian : List Mat),
      (∀ d, solver hessian gradient = .ok d →
        BatchedLogisticRegression.betaUpdate inverseSolve b gradient hessian solver
          = .ok (List.zipWith vadd b d))
      ∧ (∀ e d, solver hessian gradient = .error e →
          inverseSolve hessian gradient = .ok d →
          BatchedLogisticRegression.betaUpdate inverseSolve b gradient hessian solver
            = .ok (List.zipWith vadd b d))
      ∧ (∀ e e2, solver hessian gradient = .error e →
          inverseSolve hessian gradient = .error e2 →
          BatchedLogisticRegression.betaUpdate inverseSolve b gradient hessian solver
            = .error e2) := by
  intro inverseSolve solver b gradient hessian
  refine ⟨?_, ?_, ?_⟩
  · intro d hd
    unfold BatchedLogisticRegression.betaUpdate
    rw [hd]
  · intro e d he hd
    unfold BatchedLogisticRegression.betaUpdate
    rw [he, hd]
  · intro e e2 he he2
    unfold BatchedLogisticRegression.betaUpdate
    rw [he, he2]

/-- C7 witness: with a failing primary solve and a succeeding inverse
solve, the update falls back and succeeds. -/
theorem batched_newton_update_fallback_witness :
    wFailingSolve [[[1]]] [[1]] = .error "cholesky failed"
      ∧ wOkSolve [[[1]]] [[1]] = .ok [[1]]
      ∧ BatchedLogisticRegression.betaUpdate wOkSolve [[1]] [[1]] [[[1]]] wFailingSolve
        = .ok [[2]] := by
  refine ⟨rfl, rfl, ?_⟩
  have h := (batched_newton_update_fallback wOkSolve wFailingSolve [[1]] [[1]] [[[1]]]).2.1
    "cholesky failed" [[1]] rfl rfl
  have h2 : List.zipWith vadd ([[1]] : List Vec) [[1]] = [[2]] := by
    simp [vadd]
    norm_num
  rw [h, h2]

/-- C8: blocked `sse(X, y, nobss)` returns one value per block, obtained
by slicing the full residual vector at the cumulative sums of `nobss`
(equal or unequal counts), and the per-block values sum to the residual
sum of squares of the full stacked residual vector. -/
theorem blocked_sse_per_block (m : BlockedLinearRegression) (X : Mat) (y : Vec)
    (nobss : List ℕ) (h : nobss.sum = (m.residual X y).length) :
    (m.sse X y nobss).length = nobss.length
      ∧ (m.sse X y nobss).sum = dot (m.residual X y) (m.residual X y) := by
  unfold BlockedLinearRegression.sse
  rw [sseSlices_eq_sseRec]
  exact ⟨sseRec_length _ _, sseRec_sum _ _ h⟩

/-- C8 witness: two blocks with unequal sample counts (1 and 2) on a
3-sample residual vector. -/
theorem blocked_sse_per_block_witness :
    ([1, 2] : List ℕ).sum = (wBlockedModel.residual [[1], [1], [1]] [2, 3, 4]).length
      ∧ (wBlockedModel.sse [[1], [1], [1]] [2, 3, 4] [1, 2]).length = ([1, 2] : List ℕ).length
      ∧ (wBlockedModel.sse [[1], [1], [1]] [2, 3, 4] [1, 2]).sum
        = dot (wBlockedModel.residual [[1], [1], [1]] [2, 3, 4])
            (wBlockedModel.residual [[1], [1], [1]] [2, 3, 4]) := by
  refine ⟨by decide, ?_⟩
  have h := blocked_sse_per_block wBlockedModel [[1], [1], [1]] [2, 3, 4] [1, 2] (by decide)
  exact ⟨h.1, h.2⟩

/-- C9: `SumUp` of three same-shaped contributions returns their
element-wise sum `a + b + c`, preserving the container shape, for plain
numbers, arrays, and equal-length sequences of arrays (pairwise position
sums). -/
theorem sumup_elementwise :
    (∀ a b c : ℚ, SumUp [.num a, .num b, .num c] = some (.num (a + b + c)))
    ∧ (∀ u v w : Vec, u.length = v.length → v.length = w.length →
        SumUp [.arr u, .arr v, .arr w]
          = some (.arr (List.zipWith (· + ·) (List.zipWith (· + ·) u v) w))
        ∧ ∀ i : ℕ, (List.zipWith (· + ·) (List.zipWith (· + ·) u v) w).getD i 0
            = u.getD i 0 + v.getD i 0 + w.getD i 0)
    ∧ (∀ us vs ws : List Vec, us.length = vs.length → vs.length = ws.length →
        SumUp [.seq us, .seq vs, .seq ws]
          = some (.seq (List.zipWith (fun x y => List.zipWith (· + ·) x y)
              (List.zipWith (fun x y => List.zipWith (· + ·) x y) us vs) ws))) := by
  refine ⟨fun a b c => rfl, ?_, fun us vs ws _ _ => rfl⟩
  intro u v w h1 h2
  refine ⟨rfl, ?_⟩
  intro i
  have l1 : (List.zipWith (· + ·) u v).length = w.length := by
    rw [List.length_zipWith, h1, Nat.min_self, h2]
  rw [zipWith_add_getD _ _ l1 i, zipWith_add_getD u v h1 i]

/-- C9 witness: element-wise array sum at a concrete input. -/
theorem sumup_elementwise_witness :
    ([1] : Vec).length = ([2] : Vec).length
      ∧ ([2] : Vec).length = ([3] : Vec).length
      ∧ SumUp [.arr [1], .arr [2], .arr [3]]
        = some (.arr (List.zipWith (· + ·) (List.zipWith (· + ·) [1] [2]) [3])) :=
  ⟨rfl, rfl, (sumup_elementwise.2.1 [1] [2] [3] rfl rfl).1⟩

end FedAlgo
